import Mathlib

/-! LibreArp: pattern compiler and playback scheduler.

A shallow embedding of `Source/ArpPattern.cpp` (`ArpPattern::buildEvents`,
`ArpPattern::fromValueTree`), of `Source/LibreArp.cpp` (`LibreArp::nextTime`,
`LibreArp::processBlock`, `LibreArp::setPattern`, `LibreArp::buildPattern`,
`LibreArp::parsePattern`) and of the authoring operations of
`Source/editor/pattern/PatternEditor.cpp`.

Conventions of the embedding:

* The C++ operators `/` and `%` on signed operands are `Int.tdiv` and
  `Int.tmod` (truncation towards zero, the remainder has the sign of the
  dividend); neither leaves the range of its operands for a divisor other
  than `-1`.
* The `int64` additions and the multiplication of `LibreArp::nextTime` wrap
  around modulo `2^64` (`wrapInt64`); the other integer values stay within the
  range of their types at the inputs considered and are unbounded integers.
* A division or remainder by zero, an index outside a `std::vector`, and an
  exhausted iteration budget are reported as a `Fault`.
* `std::set<unsigned long>` is an ascending duplicate-free `List Nat`,
  `std::map<int64, Event>` an association list ascending in its keys.
* A reference to note data held by a compiled event is the index of the note
  in `ArpPattern::notes`; `data->lastNote` is the `lastNote` field of that note.
* Velocities are floating-point values forwarded verbatim; they are left out.
-/

namespace Arp

/-! ## Data model -/

/-- Ways in which the C++ code can fail to produce a result. -/
inductive Fault where
  | divisionByZero
  | outOfRange
  | outOfFuel
  deriving DecidableEq, Repr

/-- The per-note data shared with the scheduler (`note.data`): the index into
the held notes and the pitch that is currently sounding (`-1`: none). -/
structure ArpNoteData where
  noteNumber : Int
  lastNote : Int
  deriving DecidableEq, Repr

/-- One authored note (`ArpNote`). -/
structure ArpNote where
  startPoint : Int
  endPoint : Int
  data : ArpNoteData
  deriving DecidableEq, Repr

/-- The pattern (`ArpPattern`). -/
structure ArpPattern where
  timebase : Int
  loopLength : Int
  notes : List ArpNote
  deriving DecidableEq, Repr

/-- A compiled event (`ArpBuiltEvents::Event`). -/
structure Event where
  time : Int
  ons : List Nat
  offs : List Nat
  deriving DecidableEq, Repr

/-- A value-initialised event, what `eventMap[k]` creates for a new key. -/
def Event.empty : Event := ⟨0, [], []⟩

/-- The entry of `ArpBuiltEvents::data` made by `EventNoteData::of(note.data, i)`. -/
structure EventNoteData where
  data : ArpNoteData
  noteIndex : Nat
  deriving DecidableEq, Repr

/-- The result of compilation (`ArpBuiltEvents`). -/
structure ArpBuiltEvents where
  timebase : Int
  loopLength : Int
  events : List Event
  data : List EventNoteData
  deriving DecidableEq, Repr

/-! ## Containers -/

/-- The `insert` of `std::set<unsigned long>`. -/
def setInsert (x : Nat) : List Nat → List Nat
  | [] => [x]
  | y :: ys =>
    if x < y then x :: y :: ys
    else if x = y then y :: ys
    else y :: setInsert x ys

/-- The effect of `Event &e = eventMap[k]; e = f e` on a `std::map<int64, Event>`. -/
def mapUpdate (k : Int) (f : Event → Event) : List (Int × Event) → List (Int × Event)
  | [] => [(k, f Event.empty)]
  | (k', e) :: rest =>
    if k < k' then (k, f Event.empty) :: (k', e) :: rest
    else if k = k' then (k', f e) :: rest
    else (k', e) :: mapUpdate k f rest

/-- Lookup in the association list (the `find` of `std::map`). -/
def mapFind (k : Int) : List (Int × Event) → Option Event
  | [] => none
  | (k', e) :: rest => if k = k' then some e else mapFind k rest

/-- The event stored under a key, or the value-initialised event. -/
def evAt (k : Int) (m : List (Int × Event)) : Event :=
  (mapFind k m).getD Event.empty

/-! ## `ArpPattern::buildEvents` -/

/-- The body of the loop over the notes, lines 53 to 70, for note `i`. -/
def buildStep (loopLength : Int) (note : ArpNote) (i : Nat)
    (acc : List (Int × Event) × List EventNoteData) :
    List (Int × Event) × List EventNoteData :=
  let dataIndex := acc.2.length
  let data := acc.2 ++ [EventNoteData.mk note.data i]
  let onTime := Int.tmod note.startPoint loopLength
  let m1 := mapUpdate onTime
    (fun e => { e with time := onTime, ons := setInsert dataIndex e.ons }) acc.1
  let offTime := Int.tmod note.endPoint loopLength
  let m2 := mapUpdate offTime
    (fun e => { e with time := offTime, offs := setInsert dataIndex e.offs }) m1
  let m3 := mapUpdate 0
    (fun e => { e with time := 0, offs := setInsert dataIndex e.offs }) m2
  (m3, data)

/-- The loop over the notes, from index `i` on; `%` faults when `loopLength` is zero. -/
def buildLoop (loopLength : Int) :
    List ArpNote → Nat → List (Int × Event) × List EventNoteData →
    Except Fault (List (Int × Event) × List EventNoteData)
  | [], _, acc => .ok acc
  | note :: rest, i, acc =>
    if loopLength = 0 then .error Fault.divisionByZero
    else buildLoop loopLength rest (i + 1) (buildStep loopLength note i acc)

/-- The compiler `ArpPattern::buildEvents`. -/
def ArpPattern.buildEvents (p : ArpPattern) : Except Fault ArpBuiltEvents :=
  match buildLoop p.loopLength p.notes 0 ([], []) with
  | .error f => .error f
  | .ok acc =>
    .ok { timebase := p.timebase, loopLength := p.loopLength,
          events := acc.1.map Prod.snd, data := acc.2 }

/-! ## Invariants used in the proofs -/

/-- Keys strictly ascending, the order in which `std::map` is iterated. -/
def KeysAscending (m : List (Int × Event)) : Prop :=
  m.Pairwise (fun a b => a.1 < b.1)

/-- What holds of the map and the data once the notes `notes` have been processed. -/
structure BuildInv (L : Int) (notes : List ArpNote)
    (acc : List (Int × Event) × List EventNoteData) : Prop where
  asc : KeysAscending acc.1
  len : acc.2.length = notes.length
  time : ∀ k e, mapFind k acc.1 = some e → e.time = k
  ons : ∀ k d, d ∈ (evAt k acc.1).ons ↔
    ∃ note : ArpNote, notes[d]? = some note ∧ Int.tmod note.startPoint L = k
  offs : ∀ k d, d ∈ (evAt k acc.1).offs ↔
    ∃ note : ArpNote, notes[d]? = some note ∧ (Int.tmod note.endPoint L = k ∨ k = 0)
  keys : ∀ k, (mapFind k acc.1).isSome ↔
    ∃ (d : Nat) (note : ArpNote), notes[d]? = some note ∧
      (Int.tmod note.startPoint L = k ∨ Int.tmod note.endPoint L = k ∨ k = 0)


/-! ## The processor `LibreArp` -/

/-- The kind of a note message. -/
inductive MidiKind where
  | noteOn
  | noteOff
  deriving DecidableEq, Repr

/-- One call `midi.addEvent(MidiMessage::noteOn(1, pitch, velocity), offset)` or
`midi.addEvent(MidiMessage::noteOff(1, pitch), offset)`: the note argument and
the sample offset that are handed over. -/
structure MidiEvent where
  kind : MidiKind
  pitch : Int
  offset : Int
  deriving DecidableEq, Repr

/-- An incoming message as `processInputMidi` distinguishes them. -/
inductive MidiIn where
  | noteOn (pitch : Int)
  | noteOff (pitch : Int)
  | other
  deriving DecidableEq, Repr

/-- The members of the processor that the scheduler reads and writes. -/
structure LibreArp where
  pattern : ArpPattern
  patternXml : String
  events : List Event
  eventsPosition : Nat
  lastPosition : Int
  wasPlaying : Bool
  octaves : Bool
  activeNotes : List Int
  deriving DecidableEq, Repr

/-- What one call of `processBlock` receives from the host: the block size,
the incoming messages, `cpi.isPlaying`, the pulse position
`ceil(cpi.ppqPosition * timebase)` and the exact value of `pulseSamples`,
`sampleRate * 60 / (cpi.bpm * timebase)`, as a fraction with a positive
denominator. -/
structure BlockInput where
  numSamples : Int
  midi : List MidiIn
  isPlaying : Bool
  position : Int
  pulseSamplesNum : Int
  pulseSamplesDen : Int
  deriving DecidableEq, Repr

/-- The C++ `a % b` on signed integers. -/
def cMod (a b : Int) : Except Fault Int :=
  if b = 0 then .error Fault.divisionByZero else .ok (Int.tmod a b)

/-- The C++ `a / b` on signed integers. -/
def cDiv (a b : Int) : Except Fault Int :=
  if b = 0 then .error Fault.divisionByZero else .ok (Int.tdiv a b)

/-- The value `ceil(a / b)` for a positive `b`. -/
def ceilDiv (a b : Int) : Int := -((-a) / b)

/-- The largest `int64` value, `2^63 - 1`. -/
def int64Max : Int := 9223372036854775807

/-- The `int64` value that an arithmetic result wraps around to. -/
def wrapInt64 (x : Int) : Int :=
  (x + 9223372036854775808) % 18446744073709551616 - 9223372036854775808

/-- `LibreArp::nextTime`, lines 321 to 327, on `int64` values. -/
def LibreArp.nextTime (self : LibreArp) (event : Event) (position : Int) :
    Except Fault Int := do
  let q ← cDiv position self.pattern.loopLength
  let result := wrapInt64 (wrapInt64 (q * self.pattern.loopLength) + event.time)
  if result < position then .ok (wrapInt64 (result + self.pattern.loopLength))
  else .ok result

/-- Modelled from the spec: the declaration of `activeNotes` is not among the
sources; `add` appends a pitch that is absent and is a no-op otherwise. -/
def heldAdd (pitch : Int) (held : List Int) : List Int :=
  if pitch ∈ held then held else held ++ [pitch]

/-- Modelled from the spec: the declaration of `activeNotes` is not among the
sources; `removeValue` removes a pitch that is present and is a no-op otherwise. -/
def heldRemove (pitch : Int) (held : List Int) : List Int :=
  held.filter (fun x => decide (x ≠ pitch))

/-- The indexing `activeNotes[index]` of the JUCE container with a signed index:
the element at the index, and a default-constructed `int` when the index is
negative or not below the size. -/
def heldGet (held : List Int) (index : Int) : Int :=
  if 0 ≤ index ∧ index < held.length then held.getD index.toNat 0 else 0

/-- `LibreArp::processInputMidi`, lines 308 to 318. -/
def processInputMidi : List MidiIn → List Int → List Int
  | [], held => held
  | MidiIn.noteOn pitch :: rest, held => processInputMidi rest (heldAdd pitch held)
  | MidiIn.noteOff pitch :: rest, held => processInputMidi rest (heldRemove pitch held)
  | MidiIn.other :: rest, held => processInputMidi rest held

/-- Writes `lastNote` of one note. -/
def ArpNote.setLastNote (note : ArpNote) (pitch : Int) : ArpNote :=
  { note with data := { note.data with lastNote := pitch } }

/-- The loop over `pattern.getNotes()` of lines 166 to 172 and 205 to 211:
a note-off at offset 0 for every note with `lastNote > 0`, which is then cleared. -/
def silenceNotes : List ArpNote → List ArpNote × List MidiEvent
  | [] => ([], [])
  | note :: rest =>
    let r := silenceNotes rest
    if note.data.lastNote > 0 then
      (note.setLastNote (-1) :: r.1, ⟨MidiKind.noteOff, note.data.lastNote, 0⟩ :: r.2)
    else (note :: r.1, r.2)

/-- The loop over `event.offs`, lines 178 to 183. -/
def fireOffs (offset : Int) :
    List Nat → List ArpNote × List MidiEvent → Except Fault (List ArpNote × List MidiEvent)
  | [], s => .ok s
  | d :: rest, s =>
    match s.1[d]? with
    | none => .error Fault.outOfRange
    | some note =>
      if note.data.lastNote ≥ 0 then
        fireOffs offset rest
          (s.1.set d (note.setLastNote (-1)),
           s.2 ++ [⟨MidiKind.noteOff, note.data.lastNote, offset⟩])
      else fireOffs offset rest s

/-- The pitch computed in lines 186 to 190 for one on-reference. -/
def resolveNote (held : List Int) (octaves : Bool) (noteNumber : Int) : Except Fault Int := do
  let index ← cMod noteNumber held.length
  let note := heldGet held index
  if octaves then
    let octave ← cDiv noteNumber held.length
    .ok (note + octave * 12)
  else .ok note

/-- The loop over `event.ons`, lines 185 to 195. -/
def fireOns (held : List Int) (octaves : Bool) (offset : Int) :
    List Nat → List ArpNote × List MidiEvent → Except Fault (List ArpNote × List MidiEvent)
  | [], s => .ok s
  | d :: rest, s =>
    match s.1[d]? with
    | none => .error Fault.outOfRange
    | some data =>
      match resolveNote held octaves data.data.noteNumber with
      | .error f => .error f
      | .ok note =>
        fireOns held octaves offset rest
          (s.1.set d (data.setLastNote note),
           s.2 ++ [⟨MidiKind.noteOn, note, offset⟩])

/-- Line 176: `jmax(0, offsetBase % numSamples)`. -/
def foldOffset (offsetBase numSamples : Int) : Except Fault Int := do
  let r ← cMod offsetBase numSamples
  .ok (max 0 r)

/-- The sample offset of lines 175 and 176 for an event due at `time`. The
product `(time - lastPosition) * pulseSamples` and its ceiling are taken
exactly; the code computes them in `double` and casts to `int`, which gives the
same value when the product is exact in `double` and within the range of `int`. -/
def sampleOffset (input : BlockInput) (thisLastPosition time : Int) : Except Fault Int :=
  foldOffset
    (ceilDiv ((time - thisLastPosition) * input.pulseSamplesNum) input.pulseSamplesDen)
    input.numSamples

/-- The variables the `while` loop of `processBlock` changes: the notes (their
`lastNote`), the output buffer, the local `lastPosition` and `eventsPosition`. -/
structure LoopState where
  notes : List ArpNote
  out : List MidiEvent
  lastPosition : Int
  eventsPosition : Nat
  deriving DecidableEq, Repr

/-- The body of the `while` loop, lines 175 to 198, for the event `event` due at `time`. -/
def loopBody (self : LibreArp) (input : BlockInput) (event : Event) (time : Int)
    (s : LoopState) : Except Fault LoopState := do
  let offset ← sampleOffset input self.lastPosition time
  let s1 ← fireOffs offset event.offs (s.notes, s.out)
  let s2 ← fireOns self.activeNotes self.octaves offset event.ons s1
  if self.events.length = 0 then .error Fault.divisionByZero
  else .ok { notes := s2.1, out := s2.2, lastPosition := time,
             eventsPosition := (s.eventsPosition + 1) % self.events.length }

/-- The `while` loop of lines 174 to 199, with a bound on the number of iterations. -/
def eventLoop (self : LibreArp) (input : BlockInput) :
    Nat → LoopState → Except Fault LoopState
  | fuel, s =>
    match self.events[s.eventsPosition]? with
    | none => .error Fault.outOfRange
    | some event =>
      match self.nextTime event s.lastPosition with
      | .error f => .error f
      | .ok time =>
        if time < input.position then
          match fuel with
          | 0 => .error Fault.outOfFuel
          | fuel' + 1 =>
            match loopBody self input event time s with
            | .error f => .error f
            | .ok s' => eventLoop self input fuel' s'
        else .ok s

/-- `LibreArp::processBlock`, lines 149 to 215: the new state and the output buffer. -/
def LibreArp.processBlock (fuel : Nat) (self0 : LibreArp) (input : BlockInput) :
    Except Fault (LibreArp × List MidiEvent) :=
  let self := { self0 with activeNotes := processInputMidi input.midi self0.activeNotes }
  if input.isPlaying then
    if self.activeNotes.isEmpty then
      let r := silenceNotes self.pattern.notes
      .ok ({ self with pattern := { self.pattern with notes := r.1 },
                       lastPosition := input.position, wasPlaying := true }, r.2)
    else
      match eventLoop self input fuel
          ⟨self.pattern.notes, [], self.lastPosition, self.eventsPosition⟩ with
      | .error f => .error f
      | .ok s =>
        .ok ({ self with pattern := { self.pattern with notes := s.notes },
                         eventsPosition := s.eventsPosition,
                         lastPosition := input.position, wasPlaying := true }, s.out)
  else
    let r := silenceNotes self.pattern.notes
    .ok ({ self with pattern := { self.pattern with notes := r.1 },
                     eventsPosition := 0, lastPosition := 0, wasPlaying := false }, r.2)

/-- `LibreArp::buildPattern`, lines 286 to 288; the compiler it calls is `buildEvents`. -/
def LibreArp.buildPattern (self : LibreArp) : Except Fault LibreArp :=
  match self.pattern.buildEvents with
  | .error f => .error f
  | .ok r => .ok { self with events := r.events }

/-- `LibreArp::setPattern`, lines 266 to 272; `toXml` stands for
`pattern.toValueTree().toXmlString()`. -/
def LibreArp.setPattern (toXml : ArpPattern → String) (self : LibreArp)
    (pattern : ArpPattern) (updateXml : Bool) : Except Fault LibreArp :=
  let self1 := { self with pattern := pattern }
  let self2 := if updateXml then { self1 with patternXml := toXml pattern } else self1
  self2.buildPattern

/-! ## Notions used in the statements -/

/-- The number of compiled events whose on-set contains the reference `i`. -/
def onEntries (r : ArpBuiltEvents) (i : Nat) : Nat :=
  r.events.countP (fun e => decide (i ∈ e.ons))

/-- The number of compiled events whose off-set contains the reference `i`. -/
def offEntries (r : ArpBuiltEvents) (i : Nat) : Nat :=
  r.events.countP (fun e => decide (i ∈ e.offs))

/-- A pattern of two notes, the second reaching over the end of the loop. -/
def twoNotePattern : ArpPattern :=
  ⟨24, 24, [⟨0, 12, ⟨0, -1⟩⟩, ⟨6, 30, ⟨3, -1⟩⟩]⟩

/-- A pattern whose only note spans the whole loop. -/
def fullLoopPattern : ArpPattern :=
  ⟨24, 24, [⟨0, 24, ⟨0, -1⟩⟩]⟩

/-- A pattern whose only note starts one pulse before the loop. -/
def earlyNotePattern : ArpPattern :=
  ⟨24, 24, [⟨-1, 12, ⟨0, -1⟩⟩]⟩

/-- A processor with the given pattern, compiled events and held pitches, the
cursor in its initial state and octave shift enabled. -/
def LibreArp.initial (pattern : ArpPattern) (events : List Event) (held : List Int) :
    LibreArp :=
  ⟨pattern, "", events, 0, 0, false, true, held⟩

/-- The pitch of lines 186 to 190 with octave shift enabled, for `n` held pitches. -/
def octavePitch (held : List Int) (noteNumber : Int) : Int :=
  heldGet held (Int.tmod noteNumber held.length) + 12 * Int.tdiv noteNumber held.length

/-- The `noteNumber` of the note that the reference `d` denotes. -/
def noteNumberAt (notes : List ArpNote) (d : Nat) : Option Int :=
  (notes[d]?).map (fun x => x.data.noteNumber)

/-- The pattern of the concrete scenario: one note from pulse 0 to pulse 12. -/
def oneNotePattern : ArpPattern :=
  ⟨24, 24, [⟨0, 12, ⟨0, -1⟩⟩]⟩

/-- A block of 512 samples at 1000 samples per pulse. -/
def blockAt (isPlaying : Bool) (position : Int) (midi : List MidiIn) : BlockInput :=
  ⟨512, midi, isPlaying, position, 1000, 1⟩

/-- The compiled events of `twoNotePattern`. -/
def twoNoteEvents : List Event :=
  [⟨0, [0], [0, 1]⟩, ⟨6, [1], [1]⟩, ⟨12, [], [0]⟩]

/-- The processor after `twoNotePattern` has been played up to pulse 7 with the
held pitch 60: both notes sound and the cursor stands at the third event. -/
def cursorAtTwo : LibreArp :=
  ⟨⟨24, 24, [⟨0, 12, ⟨0, 60⟩⟩, ⟨6, 30, ⟨3, 96⟩⟩]⟩, "", twoNoteEvents, 2, 7, true, true, [60]⟩

/-- The processor `cursorAtTwo` after `setPattern` with `fullLoopPattern`. -/
def staleCursor : LibreArp :=
  ⟨fullLoopPattern, "", [⟨0, [0], [0]⟩], 2, 7, true, true, [60]⟩

/-- The compiled events of `oneNotePattern`. -/
def oneNoteEvents : List Event :=
  [⟨0, [0], [0]⟩, ⟨12, [], [0]⟩]

/-- The processor after `oneNotePattern` has been played up to pulse 1 with the
held pitch 0: the note sounds the pitch 0. -/
def pitchZeroSounding : LibreArp :=
  ⟨⟨24, 24, [⟨0, 12, ⟨0, 0⟩⟩]⟩, "", oneNoteEvents, 1, 1, true, true, [0]⟩

/-- A pattern without notes. -/
def emptyPattern : ArpPattern :=
  ⟨24, 24, []⟩

/-- A pattern with a negative loop length and a negative timebase. -/
def negativeLoopPattern : ArpPattern :=
  ⟨-24, -24, [⟨0, 12, ⟨0, -1⟩⟩]⟩

/-- A pattern with loop length zero and one note. -/
def zeroLoopPattern : ArpPattern :=
  ⟨24, 0, [⟨0, 12, ⟨0, -1⟩⟩]⟩

/-! ## `LibreArp::parsePattern` and `ArpPattern::fromValueTree` -/

/-- The root node that `ValueTree::fromXml` makes of a parsed document: whether
the tree is valid, its type, the properties `timebase` and `loopLength` when
present, and the notes read from the children of the child `notes` when that
child is present. -/
structure PatternTree where
  isValid : Bool
  type : String
  timebase : Option Int
  loopLength : Option Int
  notes : Option (List ArpNote)
  deriving DecidableEq, Repr

/-- What a call can throw: `ArpIntegrityException`, `std::invalid_argument`, or a fault. -/
inductive Thrown where
  | integrityException
  | invalidArgument
  | fault (f : Fault)
  deriving DecidableEq, Repr

/-- `ArpPattern::fromValueTree`, lines 95 to 120, with `DEFAULT_TIMEBASE` as first argument. -/
def ArpPattern.fromValueTree (defaultTimebase : Int) (tree : PatternTree) :
    Except Thrown ArpPattern :=
  if !tree.isValid || !(tree.type == "pattern") then .error Thrown.invalidArgument
  else
    let timebase := tree.timebase.getD defaultTimebase
    .ok ⟨timebase, tree.loopLength.getD timebase, tree.notes.getD []⟩

/-- `LibreArp::parsePattern`, lines 274 to 284: the members after the call and
what the call threw, if anything. `parse` stands for `XmlDocument::parse`
followed by `ValueTree::fromXml`, with `none` for the null document. -/
def LibreArp.parsePattern (parse : String → Option PatternTree) (defaultTimebase : Int)
    (self : LibreArp) (xmlPattern : String) : LibreArp × Option Thrown :=
  match parse xmlPattern with
  | none => (self, some Thrown.integrityException)
  | some tree =>
    match ArpPattern.fromValueTree defaultTimebase tree with
    | .error t => (self, some t)
    | .ok pattern =>
      match self.setPattern (fun _ => "") pattern false with
      | .error f => ({ self with pattern := pattern }, some (Thrown.fault f))
      | .ok self' => ({ self' with patternXml := xmlPattern }, none)

/-- What the handler of the `Apply` button in `XmlEditor.cpp` does with an
exception: it catches `ArpIntegrityException` and nothing else. -/
def caughtByXmlEditor : Thrown → Bool
  | Thrown.integrityException => true
  | _ => false

/-! ## The authoring operations of `PatternEditor` -/

/-- `PatternEditor::noteStartResize`, lines 236 to 242, for the note at `index`
and the mouse at pulse `pulse`. -/
def noteStartResize (self : LibreArp) (divisor : Int) (index : Nat) (pulse : Int) :
    Except Fault LibreArp :=
  match self.pattern.notes[index]? with
  | none => .error Fault.outOfRange
  | some note =>
    match cDiv self.pattern.timebase divisor with
    | .error f => .error f
    | .ok length =>
      let note' := { note with startPoint := min pulse (note.endPoint - length) }
      LibreArp.buildPattern
        { self with pattern := { self.pattern with notes := self.pattern.notes.set index note' } }

/-- `PatternEditor::noteEndResize`, lines 244 to 253. -/
def noteEndResize (self : LibreArp) (divisor : Int) (index : Nat) (pulse : Int) :
    Except Fault LibreArp :=
  match self.pattern.notes[index]? with
  | none => .error Fault.outOfRange
  | some note =>
    match cDiv self.pattern.timebase divisor with
    | .error f => .error f
    | .ok length =>
      let note' := { note with
        endPoint := min (max pulse (note.startPoint + length)) self.pattern.loopLength }
      LibreArp.buildPattern
        { self with pattern := { self.pattern with notes := self.pattern.notes.set index note' } }

/-- `PatternEditor::noteMove`, lines 255 to 271, with the `offset` of the drag
action, the mouse at pulse `pulse` and in the row of note number `row`. -/
def noteMove (self : LibreArp) (index : Nat) (offset pulse row : Int) :
    Except Fault LibreArp :=
  match self.pattern.notes[index]? with
  | none => .error Fault.outOfRange
  | some note =>
    let noteLength := note.endPoint - note.startPoint
    let wantedEnd := pulse + offset
    let endPoint := min (max wantedEnd noteLength) self.pattern.loopLength
    let note' : ArpNote :=
      { startPoint := endPoint - noteLength, endPoint := endPoint,
        data := { note.data with noteNumber := row } }
    LibreArp.buildPattern
      { self with pattern := { self.pattern with notes := self.pattern.notes.set index note' } }

/-- `PatternEditor::noteCreate`, lines 273 to 288, with the mouse at the snapped
pulse `pulse` and in the row of note number `row`; a new `ArpNote` sounds nothing. -/
def noteCreate (self : LibreArp) (divisor : Int) (pulse row : Int) : Except Fault LibreArp :=
  match cDiv self.pattern.timebase divisor with
  | .error f => .error f
  | .ok length =>
    let note : ArpNote := ⟨pulse, pulse + length, ⟨row, -1⟩⟩
    LibreArp.buildPattern
      { self with pattern := { self.pattern with notes := self.pattern.notes ++ [note] } }

/-- Every note of the pattern ends after it starts. -/
def NotesValid (p : ArpPattern) : Prop :=
  ∀ note ∈ p.notes, note.startPoint < note.endPoint

instance (p : ArpPattern) : Decidable (NotesValid p) := by
  unfold NotesValid
  infer_instance

/-- A pattern with a note that lies behind the end of the loop. -/
def lateNotePattern : ArpPattern :=
  ⟨24, 24, [⟨30, 36, ⟨0, -1⟩⟩]⟩

/-- The compiled events of `fullLoopPattern`: a single event, at time 0. -/
def fullLoopEvents : List Event :=
  [⟨0, [0], [0]⟩]
/-! ## Facts about the containers -/

theorem mem_setInsert (x y : Nat) (l : List Nat) :
    y ∈ setInsert x l ↔ y = x ∨ y ∈ l := by
  induction l with
  | nil => simp [setInsert]
  | cons z zs ih =>
    unfold setInsert
    split_ifs with h1 h2
    · simp
    · subst h2; simp
    · simp [ih]; tauto

theorem mapUpdate_keys (k : Int) (f : Event → Event) (m : List (Int × Event))
    (a : Int × Event) (ha : a ∈ mapUpdate k f m) : a.1 = k ∨ ∃ b ∈ m, b.1 = a.1 := by
  induction m with
  | nil => simp [mapUpdate] at ha; subst ha; simp
  | cons hd tl ih =>
    obtain ⟨k', e⟩ := hd
    unfold mapUpdate at ha
    split_ifs at ha with h1 h2
    · rcases List.mem_cons.1 ha with h | h
      · subst h; simp
      · exact Or.inr ⟨a, h, rfl⟩
    · rcases List.mem_cons.1 ha with h | h
      · subst h; left; exact h2.symm
      · exact Or.inr ⟨a, List.mem_cons_of_mem _ h, rfl⟩
    · rcases List.mem_cons.1 ha with h | h
      · subst h; exact Or.inr ⟨(k', e), List.mem_cons_self _ _, rfl⟩
      · rcases ih h with h3 | ⟨b, hb, hb2⟩
        · exact Or.inl h3
        · exact Or.inr ⟨b, List.mem_cons_of_mem _ hb, hb2⟩

theorem mapUpdate_ascending (k : Int) (f : Event → Event) (m : List (Int × Event))
    (hm : KeysAscending m) : KeysAscending (mapUpdate k f m) := by
  induction m with
  | nil => simp [mapUpdate, KeysAscending]
  | cons hd tl ih =>
    obtain ⟨k', e⟩ := hd
    unfold KeysAscending at hm ih ⊢
    rw [List.pairwise_cons] at hm
    unfold mapUpdate
    split_ifs with h1 h2
    · refine List.pairwise_cons.2 ⟨?_, List.pairwise_cons.2 hm⟩
      intro a ha
      rcases List.mem_cons.1 ha with h | h
      · subst h; exact h1
      · exact lt_trans h1 (hm.1 a h)
    · exact List.pairwise_cons.2 ⟨hm.1, hm.2⟩
    · refine List.pairwise_cons.2 ⟨?_, ih hm.2⟩
      intro a ha
      rcases mapUpdate_keys k f tl a ha with h | ⟨b, hb, hb2⟩
      · rw [h]; show k' < k; omega
      · rw [← hb2]; exact hm.1 b hb

theorem mapFind_none_of_lt (k : Int) (m : List (Int × Event))
    (h : ∀ a ∈ m, k < a.1) : mapFind k m = none := by
  induction m with
  | nil => rfl
  | cons hd tl ih =>
    obtain ⟨k', e⟩ := hd
    have h1 : k < k' := h (k', e) (List.mem_cons_self _ _)
    have h2 : k ≠ k' := by omega
    simp only [mapFind, h2, if_false]
    exact ih (fun a ha => h a (List.mem_cons_of_mem _ ha))

theorem mapFind_mapUpdate (k k' : Int) (f : Event → Event) (m : List (Int × Event))
    (hm : KeysAscending m) :
    mapFind k (mapUpdate k' f m) =
      if k = k' then some (f (evAt k' m)) else mapFind k m := by
  induction m with
  | nil =>
    simp only [mapUpdate, mapFind, evAt, Option.getD_none]
  | cons hd tl ih =>
    obtain ⟨k0, e⟩ := hd
    unfold KeysAscending at hm ih
    rw [List.pairwise_cons] at hm
    unfold mapUpdate
    by_cases h1 : k' < k0
    · simp only [h1, if_true]
      by_cases h2 : k = k'
      · subst h2
        have hn : mapFind k ((k0, e) :: tl) = none := by
          apply mapFind_none_of_lt
          intro a ha
          rcases List.mem_cons.1 ha with h | h
          · subst h; exact h1
          · exact lt_trans h1 (hm.1 a h)
        simp only [evAt, hn, Option.getD_none, if_true]
        simp [mapFind]
      · simp [mapFind, h2]
    · simp only [h1, if_false]
      by_cases h3 : k' = k0
      · subst h3
        by_cases h2 : k = k'
        · subst h2
          simp [mapFind, evAt]
        · simp [mapFind, h2]
      · simp only [h3, if_false, mapFind]
        rw [ih hm.2]
        by_cases h2 : k = k'
        · subst h2
          simp [h3, evAt, mapFind]
        · simp [h2]

theorem evAt_mapUpdate (k k' : Int) (f : Event → Event) (m : List (Int × Event))
    (hm : KeysAscending m) :
    evAt k (mapUpdate k' f m) = if k = k' then f (evAt k' m) else evAt k m := by
  unfold evAt
  rw [mapFind_mapUpdate k k' f m hm]
  split_ifs <;> simp [evAt]

theorem mem_iff_mapFind (k : Int) (e : Event) (m : List (Int × Event))
    (hm : KeysAscending m) : (k, e) ∈ m ↔ mapFind k m = some e := by
  induction m with
  | nil => simp [mapFind]
  | cons hd tl ih =>
    obtain ⟨k0, e0⟩ := hd
    unfold KeysAscending at hm ih
    rw [List.pairwise_cons] at hm
    simp only [mapFind, List.mem_cons, Prod.mk.injEq]
    split_ifs with h1
    · subst h1
      constructor
      · rintro (h | h)
        · rw [h.2]
        · have := hm.1 (k, e) h
          simp at this
      · intro h
        left
        exact ⟨rfl, (Option.some.inj h).symm⟩
    · rw [← ih hm.2]
      constructor
      · rintro (h | h)
        · exact absurd h.1 h1
        · exact h
      · intro h; exact Or.inr h

/-! ## The invariant of the compilation loop -/

theorem getElem?_snoc (pre : List ArpNote) (note x : ArpNote) (d : Nat) :
    (pre ++ [note])[d]? = some x ↔ pre[d]? = some x ∨ (d = pre.length ∧ x = note) := by
  rcases Nat.lt_trichotomy d pre.length with h | h | h
  · rw [List.getElem?_append_left h]
    constructor
    · intro h1; exact Or.inl h1
    · rintro (h1 | ⟨h1, _⟩)
      · exact h1
      · omega
  · subst h
    rw [List.getElem?_append_right (le_refl _)]
    simp [eq_comm]
  · rw [List.getElem?_append_right (le_of_lt h)]
    have h1 : pre[d]? = none := List.getElem?_eq_none (le_of_lt h)
    have h2 : d - pre.length ≠ 0 := by omega
    obtain ⟨n, hn⟩ := Nat.exists_eq_succ_of_ne_zero h2
    rw [hn, h1]
    simp
    omega

theorem buildInv_nil (L : Int) : BuildInv L [] ([], []) where
  asc := List.Pairwise.nil
  len := rfl
  time := by simp [mapFind]
  ons := by simp [evAt, mapFind, Event.empty]
  offs := by simp [evAt, mapFind, Event.empty]
  keys := by simp [mapFind]

theorem mem_ons_buildStep (L : Int) (note : ArpNote) (i : Nat)
    (acc : List (Int × Event) × List EventNoteData) (hasc : KeysAscending acc.1)
    (k : Int) (d : Nat) :
    d ∈ (evAt k (buildStep L note i acc).1).ons ↔
      (d = acc.2.length ∧ k = Int.tmod note.startPoint L) ∨ d ∈ (evAt k acc.1).ons := by
  have a1 := mapUpdate_ascending (Int.tmod note.startPoint L)
    (fun e => { e with time := Int.tmod note.startPoint L,
                       ons := setInsert acc.2.length e.ons }) acc.1 hasc
  have a2 := mapUpdate_ascending (Int.tmod note.endPoint L)
    (fun e => { e with time := Int.tmod note.endPoint L,
                       offs := setInsert acc.2.length e.offs }) _ a1
  have e1 := fun k k' f => evAt_mapUpdate k k' f _ hasc
  have e2 := fun k k' f => evAt_mapUpdate k k' f _ a1
  have e3 := fun k k' f => evAt_mapUpdate k k' f _ a2
  simp only [buildStep, e3, e2, e1]
  split_ifs <;> simp_all [mem_setInsert]

theorem mem_offs_buildStep (L : Int) (note : ArpNote) (i : Nat)
    (acc : List (Int × Event) × List EventNoteData) (hasc : KeysAscending acc.1)
    (k : Int) (d : Nat) :
    d ∈ (evAt k (buildStep L note i acc).1).offs ↔
      (d = acc.2.length ∧ (Int.tmod note.endPoint L = k ∨ k = 0)) ∨
        d ∈ (evAt k acc.1).offs := by
  have a1 := mapUpdate_ascending (Int.tmod note.startPoint L)
    (fun e => { e with time := Int.tmod note.startPoint L,
                       ons := setInsert acc.2.length e.ons }) acc.1 hasc
  have a2 := mapUpdate_ascending (Int.tmod note.endPoint L)
    (fun e => { e with time := Int.tmod note.endPoint L,
                       offs := setInsert acc.2.length e.offs }) _ a1
  have e1 := fun k k' f => evAt_mapUpdate k k' f _ hasc
  have e2 := fun k k' f => evAt_mapUpdate k k' f _ a1
  have e3 := fun k k' f => evAt_mapUpdate k k' f _ a2
  simp only [buildStep, e3, e2, e1]
  split_ifs <;> simp_all [mem_setInsert] <;> omega

theorem isSome_buildStep (L : Int) (note : ArpNote) (i : Nat)
    (acc : List (Int × Event) × List EventNoteData) (hasc : KeysAscending acc.1)
    (k : Int) :
    (mapFind k (buildStep L note i acc).1).isSome ↔
      (Int.tmod note.startPoint L = k ∨ Int.tmod note.endPoint L = k ∨ k = 0) ∨
        (mapFind k acc.1).isSome := by
  have a1 := mapUpdate_ascending (Int.tmod note.startPoint L)
    (fun e => { e with time := Int.tmod note.startPoint L,
                       ons := setInsert acc.2.length e.ons }) acc.1 hasc
  have a2 := mapUpdate_ascending (Int.tmod note.endPoint L)
    (fun e => { e with time := Int.tmod note.endPoint L,
                       offs := setInsert acc.2.length e.offs }) _ a1
  have e1 := fun k k' f => mapFind_mapUpdate k k' f _ hasc
  have e2 := fun k k' f => mapFind_mapUpdate k k' f _ a1
  have e3 := fun k k' f => mapFind_mapUpdate k k' f _ a2
  simp only [buildStep, e3, e2, e1]
  (split_ifs <;> simp_all); omega

theorem time_buildStep (L : Int) (note : ArpNote) (i : Nat)
    (acc : List (Int × Event) × List EventNoteData) (hasc : KeysAscending acc.1)
    (ht : ∀ k e, mapFind k acc.1 = some e → e.time = k)
    (k : Int) (e : Event) (he : mapFind k (buildStep L note i acc).1 = some e) :
    e.time = k := by
  have a1 := mapUpdate_ascending (Int.tmod note.startPoint L)
    (fun e => { e with time := Int.tmod note.startPoint L,
                       ons := setInsert acc.2.length e.ons }) acc.1 hasc
  have a2 := mapUpdate_ascending (Int.tmod note.endPoint L)
    (fun e => { e with time := Int.tmod note.endPoint L,
                       offs := setInsert acc.2.length e.offs }) _ a1
  have e1 := fun k k' f => mapFind_mapUpdate k k' f _ hasc
  have e2 := fun k k' f => mapFind_mapUpdate k k' f _ a1
  have e3 := fun k k' f => mapFind_mapUpdate k k' f _ a2
  simp only [buildStep, e3, e2, e1] at he
  split_ifs at he with h1 h2 h3
  · rw [← Option.some.inj he, h1]
  · rw [← Option.some.inj he, h2]
  · rw [← Option.some.inj he, h3]
  · exact ht k e he

theorem ascending_buildStep (L : Int) (note : ArpNote) (i : Nat)
    (acc : List (Int × Event) × List EventNoteData) (hasc : KeysAscending acc.1) :
    KeysAscending (buildStep L note i acc).1 := by
  unfold buildStep
  exact mapUpdate_ascending _ _ _
    (mapUpdate_ascending _ _ _ (mapUpdate_ascending _ _ _ hasc))

theorem buildInv_step (L : Int) (pre : List ArpNote) (note : ArpNote) (i : Nat)
    (acc : List (Int × Event) × List EventNoteData) (h : BuildInv L pre acc) :
    BuildInv L (pre ++ [note]) (buildStep L note i acc) := by
  refine ⟨ascending_buildStep L note i acc h.asc, ?_,
    time_buildStep L note i acc h.asc h.time, ?_, ?_, ?_⟩
  · simp [buildStep, h.len]
  · intro k d
    rw [mem_ons_buildStep L note i acc h.asc, h.ons, h.len]
    simp only [getElem?_snoc]
    constructor
    · rintro (⟨hd, hk⟩ | ⟨x, hx, hk⟩)
      · exact ⟨note, Or.inr ⟨hd, rfl⟩, hk.symm⟩
      · exact ⟨x, Or.inl hx, hk⟩
    · rintro ⟨x, hx | ⟨hd, hx⟩, hk⟩
      · exact Or.inr ⟨x, hx, hk⟩
      · subst hx; exact Or.inl ⟨hd, hk.symm⟩
  · intro k d
    rw [mem_offs_buildStep L note i acc h.asc, h.offs, h.len]
    simp only [getElem?_snoc]
    constructor
    · rintro (⟨hd, hk⟩ | ⟨x, hx, hk⟩)
      · exact ⟨note, Or.inr ⟨hd, rfl⟩, hk⟩
      · exact ⟨x, Or.inl hx, hk⟩
    · rintro ⟨x, hx | ⟨hd, hx⟩, hk⟩
      · exact Or.inr ⟨x, hx, hk⟩
      · subst hx; exact Or.inl ⟨hd, hk⟩
  · intro k
    rw [isSome_buildStep L note i acc h.asc, h.keys]
    simp only [getElem?_snoc]
    constructor
    · rintro (hk | ⟨d, x, hx, hk⟩)
      · exact ⟨pre.length, note, Or.inr ⟨rfl, rfl⟩, hk⟩
      · exact ⟨d, x, Or.inl hx, hk⟩
    · rintro ⟨d, x, hx | ⟨hd, hx⟩, hk⟩
      · exact Or.inr ⟨d, x, hx, hk⟩
      · subst hx; exact Or.inl hk

theorem buildInv_loop (L : Int) (hL : L ≠ 0) (ns : List ArpNote) :
    ∀ (pre : List ArpNote) (acc : List (Int × Event) × List EventNoteData),
      BuildInv L pre acc →
      ∃ acc', buildLoop L ns pre.length acc = .ok acc' ∧ BuildInv L (pre ++ ns) acc' := by
  induction ns with
  | nil =>
    intro pre acc h
    exact ⟨acc, rfl, by simpa using h⟩
  | cons note rest ih =>
    intro pre acc h
    have h1 := buildInv_step L pre note pre.length acc h
    obtain ⟨acc', h2, h3⟩ := ih (pre ++ [note]) _ h1
    refine ⟨acc', ?_, by simpa using h3⟩
    simp only [buildLoop, hL, if_false]
    simpa using h2

/-- The C++ remainder by a positive divisor is above the negated divisor. -/
theorem neg_lt_tmod (a b : Int) (hb : 0 < b) : -b < Int.tmod a b := by
  rcases Int.le_total 0 a with h | h
  · have := Int.tmod_nonneg b h
    omega
  · obtain ⟨n, hn⟩ := Int.eq_ofNat_of_zero_le (show 0 ≤ -a by omega)
    have ha : a = -(n : Int) := by omega
    obtain ⟨m, hm⟩ := Int.eq_ofNat_of_zero_le (le_of_lt hb)
    subst ha hm
    cases n with
    | zero => simp; omega
    | succ k =>
      have h1 : Int.tmod (-((k + 1 : Nat) : Int)) (m : Int) =
          -(((k + 1) % m : Nat) : Int) := rfl
      rw [h1]
      have h2 : (k + 1) % m < m := Nat.mod_lt _ (by omega)
      omega

/-! ## The compiled sequence -/

/-- With a non-zero loop length the compiler returns, and its map satisfies the invariant. -/
theorem buildEvents_inv (p : ArpPattern) (hL : p.loopLength ≠ 0) :
    ∃ acc, BuildInv p.loopLength p.notes acc ∧
      p.buildEvents = .ok { timebase := p.timebase, loopLength := p.loopLength,
                            events := acc.1.map Prod.snd, data := acc.2 } := by
  obtain ⟨acc, h1, h2⟩ := buildInv_loop p.loopLength hL p.notes [] ([], []) (buildInv_nil _)
  refine ⟨acc, by simpa using h2, ?_⟩
  simp only [List.length_nil] at h1
  simp [ArpPattern.buildEvents, h1]

theorem mem_events_iff (L : Int) (notes : List ArpNote)
    (acc : List (Int × Event) × List EventNoteData) (h : BuildInv L notes acc) (e : Event) :
    e ∈ acc.1.map Prod.snd ↔ mapFind e.time acc.1 = some e := by
  constructor
  · intro he
    obtain ⟨⟨k, e'⟩, hm, rfl⟩ := List.mem_map.1 he
    have h1 := (mem_iff_mapFind k e' acc.1 h.asc).1 hm
    have h2 := h.time k e' h1
    simpa [h2] using h1
  · intro he
    exact List.mem_map.2 ⟨(e.time, e), (mem_iff_mapFind _ _ _ h.asc).2 he, rfl⟩

theorem evAt_of_mem (L : Int) (notes : List ArpNote)
    (acc : List (Int × Event) × List EventNoteData) (h : BuildInv L notes acc) (e : Event)
    (he : e ∈ acc.1.map Prod.snd) : evAt e.time acc.1 = e := by
  simp [evAt, (mem_events_iff L notes acc h e).1 he]

theorem evAt_mem_of_key (L : Int) (notes : List ArpNote)
    (acc : List (Int × Event) × List EventNoteData) (h : BuildInv L notes acc) (k : Int)
    (hk : (mapFind k acc.1).isSome) :
    evAt k acc.1 ∈ acc.1.map Prod.snd ∧ (evAt k acc.1).time = k := by
  obtain ⟨e, he⟩ := Option.isSome_iff_exists.1 hk
  have ht := h.time k e he
  have h1 : evAt k acc.1 = e := by simp [evAt, he]
  rw [h1]
  refine ⟨?_, ht⟩
  rw [mem_events_iff L notes acc h e, ht]
  exact he

theorem events_pairwise (L : Int) (notes : List ArpNote)
    (acc : List (Int × Event) × List EventNoteData) (h : BuildInv L notes acc) :
    (acc.1.map Prod.snd).Pairwise (fun a b => a.time < b.time) := by
  rw [List.pairwise_map]
  refine List.Pairwise.imp_of_mem ?_ h.asc
  intro a b ha hb hab
  have h1 := h.time a.1 a.2 ((mem_iff_mapFind a.1 a.2 acc.1 h.asc).1 ha)
  have h2 := h.time b.1 b.2 ((mem_iff_mapFind b.1 b.2 acc.1 h.asc).1 hb)
  rw [h1, h2]
  exact hab

/-- In a list strictly ascending in `time`, exactly one event has a time that occurs. -/
theorem countP_time_eq_one (l : List Event)
    (hp : l.Pairwise (fun a b => a.time < b.time)) (t : Int)
    (h : ∃ e ∈ l, e.time = t) : l.countP (fun e => decide (e.time = t)) = 1 := by
  induction l with
  | nil => obtain ⟨e, he, _⟩ := h; simp at he
  | cons a l ih =>
    rw [List.pairwise_cons] at hp
    by_cases hat : a.time = t
    · have h0 : l.countP (fun e => decide (e.time = t)) = 0 := by
        rw [List.countP_eq_zero]
        intro b hb
        have := hp.1 b hb
        simp only [decide_eq_true_eq]
        omega
      simp [List.countP_cons, hat, h0]
    · obtain ⟨e, he, het⟩ := h
      rcases List.mem_cons.1 he with h1 | h1
      · subst h1; exact absurd het hat
      · simp [List.countP_cons, hat, ih hp.2 ⟨e, h1, het⟩]

theorem countP_time_eq_two (l : List Event)
    (hp : l.Pairwise (fun a b => a.time < b.time)) (t u : Int) (htu : t ≠ u)
    (h1 : ∃ e ∈ l, e.time = t) (h2 : ∃ e ∈ l, e.time = u) :
    l.countP (fun e => decide (e.time = t ∨ e.time = u)) = 2 := by
  have e1 := countP_time_eq_one l hp t h1
  have e2 := countP_time_eq_one l hp u h2
  have key : ∀ l : List Event, l.countP (fun e => decide (e.time = t ∨ e.time = u)) =
      l.countP (fun e => decide (e.time = t)) + l.countP (fun e => decide (e.time = u)) := by
    intro l
    induction l with
    | nil => rfl
    | cons a l ih =>
      simp only [List.countP_cons, ih]
      by_cases ha : a.time = t
      · have hb : a.time ≠ u := by omega
        have htu' : ¬ t = u := htu
        simp [ha, htu']; omega
      · by_cases hb : a.time = u
        · have hut : ¬ u = t := fun h => htu h.symm
          simp [hb, hut]; omega
        · simp [ha, hb]
  rw [key, e1, e2]

theorem mem_ons_iff (L : Int) (notes : List ArpNote)
    (acc : List (Int × Event) × List EventNoteData) (h : BuildInv L notes acc)
    (i : Nat) (note : ArpNote) (hn : notes[i]? = some note) (e : Event)
    (he : e ∈ acc.1.map Prod.snd) :
    i ∈ e.ons ↔ e.time = Int.tmod note.startPoint L := by
  have h1 := h.ons e.time i
  rw [evAt_of_mem L notes acc h e he] at h1
  rw [h1]
  constructor
  · rintro ⟨x, hx, hk⟩
    rw [hn] at hx
    rw [← hk, Option.some.inj hx]
  · intro hk
    exact ⟨note, hn, hk.symm⟩

theorem mem_offs_iff (L : Int) (notes : List ArpNote)
    (acc : List (Int × Event) × List EventNoteData) (h : BuildInv L notes acc)
    (i : Nat) (note : ArpNote) (hn : notes[i]? = some note) (e : Event)
    (he : e ∈ acc.1.map Prod.snd) :
    i ∈ e.offs ↔ (e.time = Int.tmod note.endPoint L ∨ e.time = 0) := by
  have h1 := h.offs e.time i
  rw [evAt_of_mem L notes acc h e he] at h1
  rw [h1]
  constructor
  · rintro ⟨x, hx, hk⟩
    rw [hn] at hx
    rw [Option.some.inj hx]
    rcases hk with hk | hk
    · exact Or.inl hk.symm
    · exact Or.inr hk
  · intro hk
    refine ⟨note, hn, ?_⟩
    rcases hk with hk | hk
    · exact Or.inl hk.symm
    · exact Or.inr hk

theorem key_present (L : Int) (notes : List ArpNote)
    (acc : List (Int × Event) × List EventNoteData) (h : BuildInv L notes acc)
    (i : Nat) (note : ArpNote) (hn : notes[i]? = some note) (k : Int)
    (hk : Int.tmod note.startPoint L = k ∨ Int.tmod note.endPoint L = k ∨ k = 0) :
    ∃ e ∈ acc.1.map Prod.snd, e.time = k := by
  have h1 := (h.keys k).2 ⟨i, note, hn, hk⟩
  exact ⟨evAt k acc.1, (evAt_mem_of_key L notes acc h k h1).1,
    (evAt_mem_of_key L notes acc h k h1).2⟩

/-! ## Claims on `ArpPattern::buildEvents` -/

/-- C1: for every pattern with `loopLength > 0`, `buildEvents` returns a list of
events that is strictly increasing by time: for all indices `i < j` the time of
event `i` is smaller than the time of event `j`, so no two events share a time. -/
theorem buildEvents_strictly_increasing (p : ArpPattern) (hL : 0 < p.loopLength) :
    ∃ r, p.buildEvents = .ok r ∧
      ∀ (i j : Nat) (hi : i < r.events.length) (hj : j < r.events.length),
        i < j → r.events[i].time < r.events[j].time := by
  obtain ⟨acc, hinv, hr⟩ := buildEvents_inv p (by omega)
  refine ⟨_, hr, ?_⟩
  exact List.pairwise_iff_getElem.1 (events_pairwise _ _ acc hinv)

theorem buildEvents_strictly_increasing_witness :
    0 < twoNotePattern.loopLength ∧
    ∃ r, twoNotePattern.buildEvents = .ok r ∧
      ∀ (i j : Nat) (hi : i < r.events.length) (hj : j < r.events.length),
        i < j → r.events[i].time < r.events[j].time :=
  ⟨by decide, buildEvents_strictly_increasing twoNotePattern (by decide)⟩

/-- C2: for every pattern with `loopLength > 0` and every note index `i`, the
sequence returned by `buildEvents` has exactly one event whose on-set contains
`i`, and the time of that event is `startPoint % loopLength` (the C++ remainder,
which is the mathematical modulus for a start point that is not negative). -/
theorem buildEvents_one_on_entry (p : ArpPattern) (hL : 0 < p.loopLength) :
    ∃ r, p.buildEvents = .ok r ∧
      ∀ (i : Nat) (note : ArpNote), p.notes[i]? = some note →
        onEntries r i = 1 ∧
        ∀ e ∈ r.events, i ∈ e.ons →
          e.time = Int.tmod note.startPoint p.loopLength ∧
          (0 ≤ note.startPoint → e.time = note.startPoint % p.loopLength) := by
  obtain ⟨acc, hinv, hr⟩ := buildEvents_inv p (by omega)
  refine ⟨_, hr, ?_⟩
  intro i note hn
  constructor
  · unfold onEntries
    simp only
    rw [List.countP_congr (q := fun e => decide (e.time = Int.tmod note.startPoint p.loopLength))]
    · exact countP_time_eq_one _ (events_pairwise _ _ acc hinv) _
        (key_present _ _ acc hinv i note hn _ (Or.inl rfl))
    · intro e he
      simpa using mem_ons_iff _ _ acc hinv i note hn e he
  · intro e he hie
    have h1 := (mem_ons_iff _ _ acc hinv i note hn e he).1 hie
    refine ⟨h1, fun h0 => ?_⟩
    rw [h1, Int.tmod_eq_emod h0 (le_of_lt hL)]

theorem buildEvents_one_on_entry_witness :
    0 < twoNotePattern.loopLength ∧
    ∃ r, twoNotePattern.buildEvents = .ok r ∧
      ∀ (i : Nat) (note : ArpNote), twoNotePattern.notes[i]? = some note →
        onEntries r i = 1 ∧
        ∀ e ∈ r.events, i ∈ e.ons →
          e.time = Int.tmod note.startPoint twoNotePattern.loopLength ∧
          (0 ≤ note.startPoint → e.time = note.startPoint % twoNotePattern.loopLength) :=
  ⟨by decide, buildEvents_one_on_entry twoNotePattern (by decide)⟩

/-- C3, as stated, fails: for the note of `fullLoopPattern`, whose end point is
a multiple of the loop length, the compiled sequence has one off-entry, not two. -/
theorem buildEvents_two_off_entries_counterexample :
    0 < fullLoopPattern.loopLength ∧
    ∃ r, fullLoopPattern.buildEvents = .ok r ∧ ¬ (2 ≤ offEntries r 0) :=
  ⟨by decide, _, rfl, by decide⟩

/-- C3, amended: for every pattern with `loopLength > 0` and every note in it,
the event at `endPoint % loopLength` and the event at pulse 0 both hold the note
in their off-set; these are two off-entries when `endPoint % loopLength` is not
0 and one merged off-entry when it is 0. -/
theorem buildEvents_off_entries (p : ArpPattern) (hL : 0 < p.loopLength) :
    ∃ r, p.buildEvents = .ok r ∧
      ∀ (i : Nat) (note : ArpNote), p.notes[i]? = some note →
        (∃ e ∈ r.events, e.time = Int.tmod note.endPoint p.loopLength ∧ i ∈ e.offs) ∧
        (∃ e ∈ r.events, e.time = 0 ∧ i ∈ e.offs) ∧
        offEntries r i = if Int.tmod note.endPoint p.loopLength = 0 then 1 else 2 := by
  obtain ⟨acc, hinv, hr⟩ := buildEvents_inv p (by omega)
  refine ⟨_, hr, ?_⟩
  intro i note hn
  obtain ⟨e1, he1, ht1⟩ := key_present _ _ acc hinv i note hn
    (Int.tmod note.endPoint p.loopLength) (Or.inr (Or.inl rfl))
  obtain ⟨e0, he0, ht0⟩ := key_present _ _ acc hinv i note hn 0 (Or.inr (Or.inr rfl))
  refine ⟨⟨e1, he1, ht1, (mem_offs_iff _ _ acc hinv i note hn e1 he1).2 (Or.inl ht1)⟩,
    ⟨e0, he0, ht0, (mem_offs_iff _ _ acc hinv i note hn e0 he0).2 (Or.inr ht0)⟩, ?_⟩
  unfold offEntries
  simp only
  rw [List.countP_congr (q := fun e =>
    decide (e.time = Int.tmod note.endPoint p.loopLength ∨ e.time = 0))]
  · split_ifs with h0
    · rw [h0]
      rw [h0] at ht1
      simp only [or_self]
      exact countP_time_eq_one _ (events_pairwise _ _ acc hinv) 0 ⟨e0, he0, ht0⟩
    · exact countP_time_eq_two _ (events_pairwise _ _ acc hinv) _ 0 h0
        ⟨e1, he1, ht1⟩ ⟨e0, he0, ht0⟩
  · intro e he
    simpa using mem_offs_iff _ _ acc hinv i note hn e he

theorem buildEvents_off_entries_witness :
    0 < twoNotePattern.loopLength ∧
    ∃ r, twoNotePattern.buildEvents = .ok r ∧
      ∀ (i : Nat) (note : ArpNote), twoNotePattern.notes[i]? = some note →
        (∃ e ∈ r.events,
          e.time = Int.tmod note.endPoint twoNotePattern.loopLength ∧ i ∈ e.offs) ∧
        (∃ e ∈ r.events, e.time = 0 ∧ i ∈ e.offs) ∧
        offEntries r i =
          if Int.tmod note.endPoint twoNotePattern.loopLength = 0 then 1 else 2 :=
  ⟨by decide, buildEvents_off_entries twoNotePattern (by decide)⟩

/-- C4: for every pattern with `loopLength > 0` and at least one note, the
sequence returned by `buildEvents` has an event with time 0 whose off-set
contains the index of every note of the pattern. -/
theorem buildEvents_total_off (p : ArpPattern) (hL : 0 < p.loopLength)
    (hne : p.notes ≠ []) :
    ∃ r, p.buildEvents = .ok r ∧
      ∃ e ∈ r.events, e.time = 0 ∧ ∀ i, i < p.notes.length → i ∈ e.offs := by
  obtain ⟨acc, hinv, hr⟩ := buildEvents_inv p (by omega)
  refine ⟨_, hr, ?_⟩
  obtain ⟨n0, rest, hcons⟩ := List.exists_cons_of_ne_nil hne
  have hn0 : p.notes[0]? = some n0 := by rw [hcons]; simp
  obtain ⟨e0, he0, ht0⟩ := key_present _ _ acc hinv 0 n0 hn0 0 (Or.inr (Or.inr rfl))
  refine ⟨e0, he0, ht0, ?_⟩
  intro i hi
  have hni : p.notes[i]? = some p.notes[i] := List.getElem?_eq_getElem hi
  exact (mem_offs_iff _ _ acc hinv i _ hni e0 he0).2 (Or.inr ht0)

theorem buildEvents_total_off_witness :
    0 < twoNotePattern.loopLength ∧ twoNotePattern.notes ≠ [] ∧
    ∃ r, twoNotePattern.buildEvents = .ok r ∧
      ∃ e ∈ r.events, e.time = 0 ∧ ∀ i, i < twoNotePattern.notes.length → i ∈ e.offs :=
  ⟨by decide, by decide, buildEvents_total_off twoNotePattern (by decide) (by decide)⟩

/-- C5, as stated, fails: the note of `earlyNotePattern` starts at pulse `-1`,
and the compiled sequence has an event with the negative time `-1`. -/
theorem buildEvents_time_range_counterexample :
    0 < earlyNotePattern.loopLength ∧
    ∃ r, earlyNotePattern.buildEvents = .ok r ∧
      ¬ (∀ e ∈ r.events, 0 ≤ e.time ∧ e.time < earlyNotePattern.loopLength) :=
  ⟨by decide, _, rfl, by decide⟩

/-- C5, amended: for every pattern with `loopLength > 0`, every event returned
by `buildEvents` has a time `t` with `-loopLength < t < loopLength`, and
`0 <= t < loopLength` when the start and end points of all notes are not
negative. -/
theorem buildEvents_time_range (p : ArpPattern) (hL : 0 < p.loopLength) :
    ∃ r, p.buildEvents = .ok r ∧
      (∀ e ∈ r.events, -p.loopLength < e.time ∧ e.time < p.loopLength) ∧
      ((∀ note ∈ p.notes, 0 ≤ note.startPoint ∧ 0 ≤ note.endPoint) →
        ∀ e ∈ r.events, 0 ≤ e.time ∧ e.time < p.loopLength) := by
  obtain ⟨acc, hinv, hr⟩ := buildEvents_inv p (by omega)
  refine ⟨_, hr, ?_, ?_⟩
  · intro e he
    have h1 := (mem_events_iff _ _ acc hinv e).1 he
    have h2 : (mapFind e.time acc.1).isSome := by rw [h1]; rfl
    obtain ⟨d, note, _, hk⟩ := (hinv.keys e.time).1 h2
    rcases hk with hk | hk | hk
    · rw [← hk]
      exact ⟨neg_lt_tmod _ _ hL, Int.tmod_lt_of_pos _ hL⟩
    · rw [← hk]
      exact ⟨neg_lt_tmod _ _ hL, Int.tmod_lt_of_pos _ hL⟩
    · rw [hk]
      exact ⟨by omega, hL⟩
  · intro hnn e he
    have h1 := (mem_events_iff _ _ acc hinv e).1 he
    have h2 : (mapFind e.time acc.1).isSome := by rw [h1]; rfl
    obtain ⟨d, note, hd, hk⟩ := (hinv.keys e.time).1 h2
    have hmem : note ∈ p.notes := (List.mem_iff_getElem?.2 ⟨d, hd⟩)
    have h3 := hnn note hmem
    rcases hk with hk | hk | hk
    · rw [← hk]
      exact ⟨Int.tmod_nonneg _ h3.1, Int.tmod_lt_of_pos _ hL⟩
    · rw [← hk]
      exact ⟨Int.tmod_nonneg _ h3.2, Int.tmod_lt_of_pos _ hL⟩
    · rw [hk]
      exact ⟨le_refl _, hL⟩

theorem buildEvents_time_range_witness :
    0 < twoNotePattern.loopLength ∧
    ∃ r, twoNotePattern.buildEvents = .ok r ∧
      (∀ e ∈ r.events,
        -twoNotePattern.loopLength < e.time ∧ e.time < twoNotePattern.loopLength) ∧
      ((∀ note ∈ twoNotePattern.notes, 0 ≤ note.startPoint ∧ 0 ≤ note.endPoint) →
        ∀ e ∈ r.events, 0 ≤ e.time ∧ e.time < twoNotePattern.loopLength) :=
  ⟨by decide, buildEvents_time_range twoNotePattern (by decide)⟩

/-! ## Claims on `LibreArp::nextTime` -/

theorem wrapInt64_of_range (x : Int) (h0 : -9223372036854775808 ≤ x)
    (h1 : x ≤ int64Max) : wrapInt64 x = x := by
  unfold int64Max at h1
  unfold wrapInt64
  omega

/-- C6, as stated, fails in two ways. With `loopLength = 24`, an event at time
23 and the position `-1`, `nextTime` returns 23, which is not below
`position + loopLength`. With the same event and the position `2^63 - 1` the
`int64` sum wraps around and `nextTime` returns a value below the position. -/
theorem nextTime_range_counterexample :
    0 < (LibreArp.initial twoNotePattern [] []).pattern.loopLength ∧
    (LibreArp.initial twoNotePattern [] []).nextTime ⟨23, [], []⟩ (-1) = .ok 23 ∧
    ¬ ((23 : Int) < -1 + (LibreArp.initial twoNotePattern [] []).pattern.loopLength) ∧
    (LibreArp.initial twoNotePattern [] []).nextTime ⟨23, [], []⟩ int64Max =
      .ok (-9223372036854775769) ∧
    ¬ (int64Max ≤ (-9223372036854775769 : Int)) :=
  ⟨by decide, rfl, by decide, rfl, by decide⟩

/-- C6, amended: for every `loopLength > 0`, every event with
`0 <= time < loopLength` and every position that is not negative and has
`position + loopLength <= 2^63 - 1`, `nextTime` returns a value `r` with
`position <= r < position + loopLength` that is congruent to the time of the
event modulo `loopLength`. -/
theorem nextTime_range (self : LibreArp) (event : Event) (position : Int)
    (hL : 0 < self.pattern.loopLength)
    (ht0 : 0 ≤ event.time) (ht1 : event.time < self.pattern.loopLength)
    (hp : 0 ≤ position) (hmax : position + self.pattern.loopLength ≤ int64Max) :
    ∃ r, self.nextTime event position = .ok r ∧
      position ≤ r ∧ r < position + self.pattern.loopLength ∧
      r % self.pattern.loopLength = event.time % self.pattern.loopLength := by
  have hL0 : self.pattern.loopLength ≠ 0 := by omega
  have hq : Int.tdiv position self.pattern.loopLength = position / self.pattern.loopLength :=
    Int.tdiv_eq_ediv hp (le_of_lt hL)
  have h1 := Int.emod_add_ediv position self.pattern.loopLength
  have h2 := Int.emod_nonneg position hL0
  have h3 := Int.emod_lt_of_pos position hL
  rw [mul_comm] at h1
  have hc1 : (position / self.pattern.loopLength * self.pattern.loopLength + event.time)
      % self.pattern.loopLength = event.time % self.pattern.loopLength := by
    rw [add_comm, Int.add_mul_emod_self]
  have hmax' : position + self.pattern.loopLength ≤ 9223372036854775807 := hmax
  have w1 : wrapInt64 (position / self.pattern.loopLength * self.pattern.loopLength) =
      position / self.pattern.loopLength * self.pattern.loopLength :=
    wrapInt64_of_range _ (by omega) (by unfold int64Max; omega)
  have w2 : wrapInt64 (position / self.pattern.loopLength * self.pattern.loopLength +
      event.time) = position / self.pattern.loopLength * self.pattern.loopLength +
      event.time :=
    wrapInt64_of_range _ (by omega) (by unfold int64Max; omega)
  simp only [LibreArp.nextTime, cDiv, hL0, if_false, hq, bind, Except.bind, w1, w2]
  split_ifs with h4
  · have w3 : wrapInt64 (position / self.pattern.loopLength * self.pattern.loopLength +
        event.time + self.pattern.loopLength) =
        position / self.pattern.loopLength * self.pattern.loopLength +
        event.time + self.pattern.loopLength :=
      wrapInt64_of_range _ (by omega) (by unfold int64Max; omega)
    refine ⟨_, rfl, ?_, ?_, ?_⟩
    · rw [w3]; omega
    · rw [w3]; omega
    · rw [w3, Int.add_emod_self, hc1]
  · exact ⟨_, rfl, by omega, by omega, hc1⟩

theorem nextTime_range_witness :
    0 < (LibreArp.initial twoNotePattern [] []).pattern.loopLength ∧
    31 + (LibreArp.initial twoNotePattern [] []).pattern.loopLength ≤ int64Max ∧
    ∃ r, (LibreArp.initial twoNotePattern [] []).nextTime ⟨6, [], []⟩ 31 = .ok r ∧
      31 ≤ r ∧ r < 31 + (LibreArp.initial twoNotePattern [] []).pattern.loopLength ∧
      r % (LibreArp.initial twoNotePattern [] []).pattern.loopLength =
        (6 : Int) % (LibreArp.initial twoNotePattern [] []).pattern.loopLength :=
  ⟨by decide, by decide,
    nextTime_range (LibreArp.initial twoNotePattern [] []) ⟨6, [], []⟩ 31
      (by decide) (by decide) (by decide) (by decide) (by decide)⟩

/-! ## Claims on the firing of events in `LibreArp::processBlock` -/

theorem resolveNote_octaves (held : List Int) (hne : held ≠ []) (noteNumber : Int) :
    resolveNote held true noteNumber = .ok (octavePitch held noteNumber) := by
  have h0 : (held.length : Int) ≠ 0 := by
    have := List.length_pos.2 hne
    omega
  simp only [resolveNote, cMod, cDiv, h0, if_false, bind, Except.bind, if_true, octavePitch]
  rw [mul_comm]

theorem heldGet_of_nonneg (held : List Int) (hne : held ≠ []) (noteNumber : Int)
    (h0 : 0 ≤ noteNumber) :
    held[noteNumber.toNat % held.length]? =
      some (heldGet held (Int.tmod noteNumber held.length)) ∧
    Int.tdiv noteNumber held.length = noteNumber / held.length := by
  have hpos : 0 < held.length := List.length_pos.2 hne
  have hpos' : (0 : Int) < held.length := by omega
  have e1 : Int.tmod noteNumber held.length = noteNumber % held.length :=
    Int.tmod_eq_emod h0 (le_of_lt hpos')
  have e2 := Int.emod_nonneg noteNumber (ne_of_gt hpos')
  have e3 := Int.emod_lt_of_pos noteNumber hpos'
  refine ⟨?_, Int.tdiv_eq_ediv h0 (le_of_lt hpos')⟩
  obtain ⟨n, rfl⟩ := Int.eq_ofNat_of_zero_le h0
  have e4 : ((n : Int) % (held.length : Int)) = ((n % held.length : Nat) : Int) := by
    norm_cast
  have e5 : n % held.length < held.length := Nat.mod_lt _ hpos
  rw [e1, heldGet, if_pos ⟨e2, e3⟩, e4]
  simp only [Int.toNat_ofNat]
  rw [List.getD_eq_getElem?_getD, List.getElem?_eq_getElem e5]
  rfl

theorem fireOns_spec (held : List Int) (hne : held ≠ []) (offset : Int) (ons : List Nat) :
    ∀ s : List ArpNote × List MidiEvent, (∀ d ∈ ons, d < s.1.length) →
      ∃ s', fireOns held true offset ons s = .ok s' ∧
        s'.1.length = s.1.length ∧
        (∀ d, noteNumberAt s'.1 d = noteNumberAt s.1 d) ∧
        (∀ m ∈ s.2, m ∈ s'.2) ∧
        (∀ d, d ∉ ons → s'.1[d]? = s.1[d]?) ∧
        (∀ d ∈ ons, ∀ data, s.1[d]? = some data →
          ∃ data', s'.1[d]? = some data' ∧
            data'.data.lastNote = octavePitch held data.data.noteNumber ∧
            (⟨MidiKind.noteOn, octavePitch held data.data.noteNumber, offset⟩ : MidiEvent)
              ∈ s'.2) := by
  induction ons with
  | nil =>
    intro s _
    exact ⟨s, rfl, rfl, fun _ => rfl, fun _ h => h, fun _ _ => rfl, by simp⟩
  | cons d0 rest ih =>
    intro s hv
    have hd0 : d0 < s.1.length := hv d0 (List.mem_cons_self _ _)
    have hget : s.1[d0]? = some s.1[d0] := List.getElem?_eq_getElem hd0
    obtain ⟨s', h1, h2, h3, h4, h5, h6⟩ := ih
      (s.1.set d0 (s.1[d0].setLastNote (octavePitch held s.1[d0].data.noteNumber)),
        s.2 ++ [⟨MidiKind.noteOn, octavePitch held s.1[d0].data.noteNumber, offset⟩])
      (by intro d hd; simpa using hv d (List.mem_cons_of_mem _ hd))
    have hnn : ∀ d, noteNumberAt (s.1.set d0
        (s.1[d0].setLastNote (octavePitch held s.1[d0].data.noteNumber))) d =
          noteNumberAt s.1 d := by
      intro d
      unfold noteNumberAt
      by_cases hdd : d0 = d
      · subst hdd
        simp [List.getElem?_set_self, hd0, hget, ArpNote.setLastNote]
      · rw [List.getElem?_set_ne hdd]
    refine ⟨s', ?_, ?_, ?_, ?_, ?_, ?_⟩
    · simp only [fireOns, hget, resolveNote_octaves held hne]
      exact h1
    · simpa using h2
    · intro d; rw [h3 d, hnn d]
    · intro m hm
      exact h4 m (List.mem_append_left _ hm)
    · intro d hd
      have hd1 : d0 ≠ d := fun h => hd (h ▸ List.mem_cons_self _ _)
      have hd2 : d ∉ rest := fun h => hd (List.mem_cons_of_mem _ h)
      rw [h5 d hd2, List.getElem?_set_ne hd1]
    · intro d hd data hdata
      by_cases hdr : d ∈ rest
      · have h7 := hnn d
        unfold noteNumberAt at h7
        rw [hdata] at h7
        cases hx : (s.1.set d0
            (s.1[d0].setLastNote (octavePitch held s.1[d0].data.noteNumber)))[d]? with
        | none => rw [hx] at h7; simp at h7
        | some data1 =>
          rw [hx] at h7
          simp only [Option.map_some', Option.some.injEq] at h7
          obtain ⟨data', h8, h9, h10⟩ := h6 d hdr data1 hx
          rw [h7] at h9 h10
          exact ⟨data', h8, h9, h10⟩
      · have hdd : d = d0 := by
          rcases List.mem_cons.1 hd with h | h
          · exact h
          · exact absurd h hdr
        subst hdd
        rw [hget] at hdata
        have hdata' : s.1[d] = data := Option.some.inj hdata
        rw [hdata'] at h5 h4
        refine ⟨data.setLastNote (octavePitch held data.data.noteNumber), ?_, rfl, ?_⟩
        · rw [h5 d hdr]
          simp [List.getElem?_set_self, hd0]
        · apply h4
          simp

/-- C8 fails at `noteNumber = -1` with the held pitches `[60, 64]`: the index
`noteNumber % n` is `-1`, outside `[0, n)`, and the note resolves to pitch 0,
which is not a held pitch. -/
theorem resolveNote_negative_noteNumber :
    cMod (-1) (([60, 64] : List Int).length) = .ok (-1) ∧
    resolveNote [60, 64] true (-1) = .ok 0 ∧
    (0 : Int) ∉ ([60, 64] : List Int) ∧
    fireOns [60, 64] true 0 [0] ([⟨0, 12, ⟨-1, -1⟩⟩], []) =
      .ok ([⟨0, 12, ⟨-1, 0⟩⟩], [⟨MidiKind.noteOn, 0, 0⟩]) :=
  ⟨rfl, rfl, by decide, rfl⟩

/-! ## Claims on the cursor and on the not-playing cycle -/

/-- After the loop over the notes of the not-playing branch no note has
`lastNote > 0`, so a second pass emits nothing and changes nothing. -/
theorem silenceNotes_twice (notes : List ArpNote) :
    silenceNotes (silenceNotes notes).1 = ((silenceNotes notes).1, []) := by
  induction notes with
  | nil => rfl
  | cons note rest ih =>
    by_cases h : note.data.lastNote > 0
    · simp [silenceNotes, h, ArpNote.setLastNote, ih]
    · simp [silenceNotes, h, ih]

/-- The not-playing branch emits one note-off at offset 0 for every note with
`lastNote > 0`, in the order of the notes, and nothing else. -/
theorem silenceNotes_out (notes : List ArpNote) :
    (silenceNotes notes).2 =
      (notes.filter (fun x => decide (x.data.lastNote > 0))).map
        (fun x => (⟨MidiKind.noteOff, x.data.lastNote, 0⟩ : MidiEvent)) := by
  induction notes with
  | nil => rfl
  | cons note rest ih =>
    by_cases h : note.data.lastNote > 0
    · simp [silenceNotes, h, ih]
    · simp [silenceNotes, h, ih]

/-- C9 fails for a note sounding the pitch 0: playing `oneNotePattern` with the
held pitch 0 leaves the note with `lastNote = 0`; the following not-playing
cycle resets the cursor but emits no note-off and leaves `lastNote` at 0. -/
theorem processBlock_stop_skips_pitch_zero :
    (LibreArp.initial oneNotePattern [] []).buildPattern =
      .ok (LibreArp.initial oneNotePattern oneNoteEvents []) ∧
    (LibreArp.initial oneNotePattern oneNoteEvents []).processBlock 4
        (blockAt true 1 [MidiIn.noteOn 0]) =
      .ok (pitchZeroSounding, [⟨MidiKind.noteOn, 0, 0⟩]) ∧
    pitchZeroSounding.pattern.notes.map (fun x => x.data.lastNote) = [0] ∧
    pitchZeroSounding.processBlock 4 (blockAt false 1 []) =
      .ok ({ pitchZeroSounding with
              eventsPosition := 0, lastPosition := 0, wasPlaying := false }, []) :=
  ⟨rfl, rfl, rfl, rfl⟩

theorem setPattern_keeps_cursor (toXml : ArpPattern → String) (self self' : LibreArp)
    (pattern : ArpPattern) (updateXml : Bool)
    (h : self.setPattern toXml pattern updateXml = .ok self') :
    self'.eventsPosition = self.eventsPosition ∧ self'.lastPosition = self.lastPosition := by
  unfold LibreArp.setPattern LibreArp.buildPattern at h
  cases updateXml <;>
  · simp only [Bool.false_eq_true, if_false, if_true] at h
    split at h
    · exact absurd h (by simp)
    · cases h
      exact ⟨rfl, rfl⟩

/-- C10 fails: playing `twoNotePattern` up to pulse 7 leaves the cursor at
`eventsPosition = 2`, `lastPosition = 7`; `setPattern` with `fullLoopPattern`
then installs a sequence of one event and keeps `eventsPosition = 2` and
`lastPosition = 7`, and the next playing cycle reads outside the sequence. -/
theorem setPattern_keeps_stale_cursor :
    (LibreArp.initial twoNotePattern [] [60]).buildPattern =
      .ok (LibreArp.initial twoNotePattern twoNoteEvents [60]) ∧
    (LibreArp.initial twoNotePattern twoNoteEvents [60]).processBlock 4 (blockAt true 7 []) =
      .ok (cursorAtTwo, [⟨MidiKind.noteOn, 60, 0⟩, ⟨MidiKind.noteOn, 96, 368⟩]) ∧
    cursorAtTwo.eventsPosition = 2 ∧ cursorAtTwo.lastPosition = 7 ∧
    cursorAtTwo.setPattern (fun _ => "") fullLoopPattern true = .ok staleCursor ∧
    staleCursor.events.length = 1 ∧ staleCursor.eventsPosition = 2 ∧
    staleCursor.lastPosition = 7 ∧
    staleCursor.processBlock 4 (blockAt true 8 []) = .error Fault.outOfRange :=
  ⟨rfl, rfl, rfl, rfl, rfl, rfl, rfl, rfl, rfl⟩

/-! ## Claims on degenerate patterns -/

/-- A pattern without notes compiles to the empty sequence, whatever its loop length. -/
theorem buildEvents_no_notes (timebase loopLength : Int) :
    (ArpPattern.mk timebase loopLength []).buildEvents =
      .ok ⟨timebase, loopLength, [], []⟩ := rfl

/-- C11 fails in its second half: the pattern without notes compiles to the
empty sequence, and every playing cycle with the held pitch 60 on that sequence
reads `events[0]` outside the sequence. -/
theorem processBlock_empty_sequence_faults (fuel : Nat) (position : Int) :
    emptyPattern.buildEvents = .ok ⟨24, 24, [], []⟩ ∧
    (LibreArp.initial emptyPattern [] []).buildPattern =
      .ok (LibreArp.initial emptyPattern [] []) ∧
    (LibreArp.initial emptyPattern [] [60]).processBlock fuel (blockAt true position []) =
      .error Fault.outOfRange := by
  refine ⟨rfl, rfl, ?_⟩
  cases fuel <;> rfl

/-- With loop length zero the first note makes `buildEvents` take a remainder by zero. -/
theorem buildEvents_zero_loopLength (p : ArpPattern) (hL : p.loopLength = 0)
    (hne : p.notes ≠ []) : p.buildEvents = .error Fault.divisionByZero := by
  obtain ⟨n0, rest, hcons⟩ := List.exists_cons_of_ne_nil hne
  simp [ArpPattern.buildEvents, hcons, buildLoop, hL]

/-- For a loop length other than 0, of either sign and with any timebase, and
for a pattern without notes, `buildEvents` returns a compiled sequence that
carries the timebase and the loop length of the pattern. -/
theorem buildEvents_returns (p : ArpPattern)
    (h : p.loopLength ≠ 0 ∨ p.notes = []) :
    ∃ r, p.buildEvents = .ok r ∧ r.timebase = p.timebase ∧
      r.loopLength = p.loopLength := by
  rcases h with h | h
  · obtain ⟨acc, _, hr⟩ := buildEvents_inv p h
    exact ⟨_, hr, rfl, rfl⟩
  · refine ⟨⟨p.timebase, p.loopLength, [], []⟩, ?_, rfl, rfl⟩
    simp [ArpPattern.buildEvents, h, buildLoop]

/-- C12 fails: `buildEvents` validates nothing. The document with
`loopLength = 0` and one note is read by `fromValueTree` into
`zeroLoopPattern`; `buildEvents` then takes the remainder
`startPoint % loopLength` by zero instead of rejecting the pattern, and
`parsePattern` has installed the pattern when that happens. The pattern with
`loopLength = -24` and `timebase = -24` is compiled to a sequence instead of
being rejected. -/
theorem buildEvents_degenerate_not_rejected :
    zeroLoopPattern.loopLength ≤ 0 ∧
    ArpPattern.fromValueTree 24
        ⟨true, "pattern", some 24, some 0, some [⟨0, 12, ⟨0, -1⟩⟩]⟩ =
      .ok zeroLoopPattern ∧
    zeroLoopPattern.buildEvents = .error Fault.divisionByZero ∧
    (LibreArp.initial oneNotePattern oneNoteEvents []).parsePattern
        (fun _ => some ⟨true, "pattern", some 24, some 0, some [⟨0, 12, ⟨0, -1⟩⟩]⟩)
        24 "" =
      ({ LibreArp.initial oneNotePattern oneNoteEvents [] with pattern := zeroLoopPattern },
        some (Thrown.fault Fault.divisionByZero)) ∧
    negativeLoopPattern.loopLength ≤ 0 ∧ negativeLoopPattern.timebase ≤ 0 ∧
    negativeLoopPattern.buildEvents =
      .ok ⟨-24, -24, [⟨0, [0], [0]⟩, ⟨12, [], [0]⟩], [⟨⟨0, -1⟩, 0⟩]⟩ :=
  ⟨by decide, rfl, rfl, rfl, by decide, by decide, rfl⟩

/-! ## Claims on sample offsets and on the concrete scenario -/

/-- C13: for every block sample count `numSamples > 0` and every integer
`offsetBase`, of either sign, the sample offset `jmax(0, offsetBase % numSamples)`
that `processBlock` attaches to an emitted event is computed without fault and
satisfies `0 <= offset < numSamples`. -/
theorem foldOffset_range (offsetBase numSamples : Int) (h : 0 < numSamples) :
    ∃ offset, foldOffset offsetBase numSamples = .ok offset ∧
      0 ≤ offset ∧ offset < numSamples := by
  have h0 : numSamples ≠ 0 := by omega
  have h1 := Int.tmod_lt_of_pos offsetBase h
  refine ⟨max 0 (Int.tmod offsetBase numSamples), ?_, le_max_left _ _, max_lt h h1⟩
  simp [foldOffset, cMod, h0, bind, Except.bind]

theorem foldOffset_range_witness :
    (0 : Int) < 512 ∧
    ∃ offset, foldOffset (-6000) 512 = .ok offset ∧ 0 ≤ offset ∧ offset < 512 :=
  ⟨by decide, foldOffset_range (-6000) 512 (by decide)⟩

/-- The offset of an event in a block is within the block, for every block
input with `numSamples > 0`. -/
theorem sampleOffset_range (input : BlockInput) (thisLastPosition time : Int)
    (h : 0 < input.numSamples) :
    ∃ offset, sampleOffset input thisLastPosition time = .ok offset ∧
      0 ≤ offset ∧ offset < input.numSamples :=
  foldOffset_range _ _ h

/-- C14, as stated, fails: in the concrete scenario the first cycle, at pulse
position 0, emits no event; the event at time 0 is not before the position. -/
theorem first_cycle_note_on_counterexample :
    ∃ s out, (LibreArp.initial oneNotePattern oneNoteEvents [60]).processBlock 4
        (blockAt true 0 []) = .ok (s, out) ∧
      (⟨MidiKind.noteOn, 60, 0⟩ : MidiEvent) ∉ out :=
  ⟨{ LibreArp.initial oneNotePattern oneNoteEvents [60] with wasPlaying := true }, [],
    rfl, by decide⟩

/-- C14, amended: in the concrete scenario (timebase 24, loop length 24, one
note from 0 to 12 with `noteNumber = 0`, held pitch 60, cursor initial, 1000
samples per pulse, blocks of 512 samples) the cycle at pulse position 0 emits
nothing and leaves the cursor at the first event; the following cycle, at pulse
position 1, emits one note-on at sample offset 0 for pitch 60 and nothing else. -/
theorem first_cycles_note_on :
    (LibreArp.initial oneNotePattern [] [60]).buildPattern =
      .ok (LibreArp.initial oneNotePattern oneNoteEvents [60]) ∧
    (LibreArp.initial oneNotePattern oneNoteEvents [60]).processBlock 4
        (blockAt true 0 []) =
      .ok ({ LibreArp.initial oneNotePattern oneNoteEvents [60] with
              wasPlaying := true }, []) ∧
    ({ LibreArp.initial oneNotePattern oneNoteEvents [60] with
        wasPlaying := true } : LibreArp).processBlock 4 (blockAt true 1 []) =
      .ok (⟨⟨24, 24, [⟨0, 12, ⟨0, 60⟩⟩]⟩, "", oneNoteEvents, 1, 1, true, true, [60]⟩,
           [⟨MidiKind.noteOn, 60, 0⟩]) :=
  ⟨rfl, rfl, rfl⟩

/-! ## Claims on `LibreArp::parsePattern` -/

/-- A call of `parsePattern` that throws an exception leaves the processor as it was. -/
theorem parsePattern_thrown_keeps_state (parse : String → Option PatternTree)
    (defaultTimebase : Int) (self : LibreArp) (xmlPattern : String)
    (h : (self.parsePattern parse defaultTimebase xmlPattern).2 =
          some Thrown.integrityException ∨
         (self.parsePattern parse defaultTimebase xmlPattern).2 =
          some Thrown.invalidArgument) :
    (self.parsePattern parse defaultTimebase xmlPattern).1 = self := by
  unfold LibreArp.parsePattern at h ⊢
  cases hp : parse xmlPattern with
  | none => rfl
  | some tree =>
    simp only [hp] at h ⊢
    cases hf : ArpPattern.fromValueTree defaultTimebase tree with
    | error t => rfl
    | ok pattern =>
      simp only [hf] at h ⊢
      cases hs : self.setPattern (fun _ => "") pattern false with
      | error f => simp [hs] at h
      | ok self' => simp [hs] at h

/-- C15 fails in the kind of the error for a wrong root node: text that does
not parse makes `parsePattern` throw `ArpIntegrityException` and change
nothing; a document whose root node is of type `foo` changes nothing either,
but `fromValueTree` throws `std::invalid_argument`, which the handler in
`XmlEditor.cpp` does not catch. -/
theorem parsePattern_wrong_root_invalid_argument (self : LibreArp) (xmlPattern : String)
    (defaultTimebase : Int) :
    self.parsePattern (fun _ => none) defaultTimebase xmlPattern =
      (self, some Thrown.integrityException) ∧
    self.parsePattern (fun _ => some ⟨true, "foo", none, none, none⟩)
        defaultTimebase xmlPattern =
      (self, some Thrown.invalidArgument) ∧
    caughtByXmlEditor Thrown.invalidArgument = false ∧
    caughtByXmlEditor Thrown.integrityException = true :=
  ⟨rfl, rfl, rfl, rfl⟩

/-! ## Claims on the authoring operations -/

theorem buildPattern_ok (self : LibreArp) (hL : self.pattern.loopLength ≠ 0) :
    ∃ s', self.buildPattern = .ok s' ∧ s'.pattern = self.pattern := by
  obtain ⟨acc, _, hr⟩ := buildEvents_inv self.pattern hL
  exact ⟨{ self with events := acc.1.map Prod.snd },
    by simp only [LibreArp.buildPattern, hr], rfl⟩

theorem cDiv_length (timebase divisor : Int) (hd : 0 < divisor) (hle : divisor ≤ timebase) :
    ∃ length, cDiv timebase divisor = .ok length ∧ 1 ≤ length := by
  have h0 : divisor ≠ 0 := by omega
  refine ⟨Int.tdiv timebase divisor, by simp [cDiv, h0], ?_⟩
  rw [Int.tdiv_eq_ediv (by omega) (le_of_lt hd)]
  exact Int.le_ediv_of_mul_le hd (by omega)

theorem notesValid_set (notes : List ArpNote) (index : Nat) (note : ArpNote)
    (hv : ∀ x ∈ notes, x.startPoint < x.endPoint) (hn : note.startPoint < note.endPoint) :
    ∀ x ∈ notes.set index note, x.startPoint < x.endPoint := by
  intro x hx
  rcases List.mem_or_eq_of_mem_set hx with h | h
  · exact hv x h
  · rw [h]; exact hn

theorem loopBody_full_loop (n : ArpNote) (out : List MidiEvent) :
    ∃ n' out', loopBody (LibreArp.initial fullLoopPattern fullLoopEvents [60])
        (blockAt true 1 []) ⟨0, [0], [0]⟩ 0 ⟨[n], out, 0, 0⟩ = .ok ⟨[n'], out', 0, 0⟩ := by
  have hr := fun nn => resolveNote_octaves [60] (by decide) nn
  have hoff : sampleOffset (blockAt true 1 [])
      (LibreArp.initial fullLoopPattern fullLoopEvents [60]).lastPosition 0 = .ok 0 := rfl
  by_cases h : 0 ≤ n.data.lastNote
  · refine ⟨(n.setLastNote (-1)).setLastNote (octavePitch [60] n.data.noteNumber),
      out ++ [⟨MidiKind.noteOff, n.data.lastNote, 0⟩] ++
        [⟨MidiKind.noteOn, octavePitch [60] n.data.noteNumber, 0⟩], ?_⟩
    simp only [loopBody, hoff, bind, Except.bind, fireOffs, fireOns, h]
    simp [LibreArp.initial, fullLoopEvents, hr, ArpNote.setLastNote, h]
  · refine ⟨n.setLastNote (octavePitch [60] n.data.noteNumber),
      out ++ [⟨MidiKind.noteOn, octavePitch [60] n.data.noteNumber, 0⟩], ?_⟩
    simp only [loopBody, hoff, bind, Except.bind, fireOffs, fireOns, h]
    simp [LibreArp.initial, fullLoopEvents, hr, ArpNote.setLastNote, h]

theorem eventLoop_full_loop (fuel : Nat) :
    ∀ (n : ArpNote) (out : List MidiEvent),
      eventLoop (LibreArp.initial fullLoopPattern fullLoopEvents [60]) (blockAt true 1 [])
        fuel ⟨[n], out, 0, 0⟩ = .error Fault.outOfFuel := by
  induction fuel with
  | zero => intro n out; rfl
  | succ k ih =>
    intro n out
    obtain ⟨n', out', hb⟩ := loopBody_full_loop n out
    have hnext : (LibreArp.initial fullLoopPattern fullLoopEvents [60]).nextTime
        ⟨0, [0], [0]⟩ 0 = .ok 0 := rfl
    have hev : (LibreArp.initial fullLoopPattern fullLoopEvents [60]).events[0]? =
        some ⟨0, [0], [0]⟩ := rfl
    have hpos : (0 : Int) < (blockAt true 1 []).position := by decide
    unfold eventLoop
    simp only [hev, hnext, hpos, if_true, hb]
    exact ih n' out'

/-- C17 fails for a sequence with a single event: `fullLoopPattern` (one note
spanning the whole loop) compiles to one event at time 0, and with the held
pitch 60 and `lastPosition = 0 <= position = 1` the event loop fires that event
again and again at the absolute time 0; no number of iterations lets
`processBlock` return. -/
theorem processBlock_single_event_never_returns (fuel : Nat) :
    fullLoopPattern.buildEvents = .ok ⟨24, 24, fullLoopEvents, [⟨⟨0, -1⟩, 0⟩]⟩ ∧
    (LibreArp.initial fullLoopPattern fullLoopEvents [60]).processBlock fuel
      (blockAt true 1 []) = .error Fault.outOfFuel := by
  refine ⟨rfl, ?_⟩
  have h := eventLoop_full_loop fuel ⟨0, 24, ⟨0, -1⟩⟩ []
  simp only [LibreArp.processBlock]
  have h1 : processInputMidi (blockAt true 1 []).midi
      (LibreArp.initial fullLoopPattern fullLoopEvents [60]).activeNotes = [60] := rfl
  simp only [h1]
  have h2 : (blockAt true 1 []).isPlaying = true := rfl
  simp only [h2, if_true]
  have h3 : ([60] : List Int).isEmpty = false := rfl
  simp only [h3]
  exact (by
    have h4 : eventLoop { LibreArp.initial fullLoopPattern fullLoopEvents [60] with
        activeNotes := [60] } (blockAt true 1 []) fuel
        ⟨(LibreArp.initial fullLoopPattern fullLoopEvents [60]).pattern.notes, [],
          (LibreArp.initial fullLoopPattern fullLoopEvents [60]).lastPosition,
          (LibreArp.initial fullLoopPattern fullLoopEvents [60]).eventsPosition⟩ =
        .error Fault.outOfFuel := h
    simp [h4])

end Arp
